import Mathlib

/-!
Verification of the procedural image-composition engine of the
text-to-image repository (src/App.js) against its design specification.

The JavaScript source is shallowly embedded: JS numbers become `ℚ`
(all arithmetic in the program is exact on the inputs we consider),
`Math.random()` draws become an explicit stream `List ℚ` of values in
`[0,1)` consumed in program order, and the text-measurement capability
of the canvas (`ctx.measureText`) becomes a function parameter.
-/

namespace TextToImage

/-- `rand(min, max)` (App.js line 29): `Math.random() * (max - min) + min`,
with the `Math.random()` draw `r` made explicit. -/
def rand (lo hi r : ℚ) : ℚ := r * (hi - lo) + lo

/-- `randInt(min, max)` (App.js line 30): `Math.floor(rand(min, max + 1))`. -/
def randInt (lo hi : ℤ) (r : ℚ) : ℤ := ⌊rand (lo : ℚ) ((hi : ℚ) + 1) r⌋

/-- JS `Math.round`: round half toward positive infinity. -/
def jsRound (x : ℚ) : ℤ := ⌊x + 1/2⌋

/-- Truncation of a rational toward zero, as JS float-to-int truncation. -/
def ratTrunc (q : ℚ) : ℤ := if q < 0 then -⌊-q⌋ else ⌊q⌋

/-- JS `%` on numbers: `a - b * trunc(a / b)` (sign follows the dividend). -/
def jsMod (a b : ℚ) : ℚ := a - b * (ratTrunc (a / b) : ℚ)

/-- Pop the next `Math.random()` draw off the stream (`0` if exhausted;
the stream is long enough in any real run). -/
def take1 (rs : List ℚ) : ℚ × List ℚ :=
  match rs with
  | [] => (0, [])
  | r :: t => (r, t)

/-- An HSL color triple as produced by the sampler (App.js line 33). -/
structure Hsl where
  h : ℚ
  s : ℚ
  l : ℚ
deriving DecidableEq

/-- JS `String.prototype.trim()` on the character list: drop leading and
trailing whitespace (used by the guard `if (!prompt.trim()) return;`,
App.js line 139). -/
def jsTrim (s : String) : String :=
  String.mk (((s.toList.dropWhile Char.isWhitespace).reverse.dropWhile
    Char.isWhitespace).reverse)

/-- `pickBgColors` (App.js lines 36-44): six `randInt` draws, in source
order h1, hue-delta, s1, s2, l1, l2; `h2 = (h1 + randInt(20,140)) % 360`
with JS integer `%` (truncated, `Int.tmod`). -/
def pickBgColors (rs : List ℚ) : (Hsl × Hsl) × List ℚ :=
  let r1 := (take1 rs).1
  let rs1 := (take1 rs).2
  let r2 := (take1 rs1).1
  let rs2 := (take1 rs1).2
  let r3 := (take1 rs2).1
  let rs3 := (take1 rs2).2
  let r4 := (take1 rs3).1
  let rs4 := (take1 rs3).2
  let r5 := (take1 rs4).1
  let rs5 := (take1 rs4).2
  let r6 := (take1 rs5).1
  let rs6 := (take1 rs5).2
  let h1 := randInt 0 360 r1
  let h2 := Int.tmod (h1 + randInt 20 140 r2) 360
  ((⟨(h1 : ℚ), (randInt 55 95 r3 : ℚ), (randInt 25 60 r5 : ℚ)⟩,
    ⟨(h2 : ℚ), (randInt 55 95 r4 : ℚ), (randInt 25 60 r6 : ℚ)⟩), rs6)

/-- The dark-text loop of `pickTextColorsForBg` (App.js lines 54-59):
per iteration three draws, in order hue jitter `randInt(-60,60)`,
saturation `randInt(40,85)`, lightness `randInt(8,35)`;
`hh = (baseHue + jitter + 360) % 360` with JS float `%`. -/
def pickDarkLoop (baseHue : ℚ) : ℕ → List ℚ → List Hsl × List ℚ
  | 0, rs => ([], rs)
  | n + 1, rs =>
    (⟨jsMod (baseHue + ((randInt (-60) 60 (take1 rs).1 : ℤ) : ℚ) + 360) 360,
      ((randInt 40 85 (take1 (take1 rs).2).1 : ℤ) : ℚ),
      ((randInt 8 35 (take1 (take1 (take1 rs).2).2).1 : ℤ) : ℚ)⟩ ::
        (pickDarkLoop baseHue n (take1 (take1 (take1 rs).2).2).2).1,
     (pickDarkLoop baseHue n (take1 (take1 (take1 rs).2).2).2).2)

/-- The light-text loop of `pickTextColorsForBg` (App.js lines 62-67):
saturation `randInt(45,95)`, lightness `randInt(68,98)`. -/
def pickLightLoop (baseHue : ℚ) : ℕ → List ℚ → List Hsl × List ℚ
  | 0, rs => ([], rs)
  | n + 1, rs =>
    (⟨jsMod (baseHue + ((randInt (-60) 60 (take1 rs).1 : ℤ) : ℚ) + 360) 360,
      ((randInt 45 95 (take1 (take1 rs).2).1 : ℤ) : ℚ),
      ((randInt 68 98 (take1 (take1 (take1 rs).2).2).1 : ℤ) : ℚ)⟩ ::
        (pickLightLoop baseHue n (take1 (take1 (take1 rs).2).2).2).1,
     (pickLightLoop baseHue n (take1 (take1 (take1 rs).2).2).2).2)

/-- `pickTextColorsForBg` (App.js lines 48-70): average background
lightness selects a dark-text or light-text sampling loop. -/
def pickTextColorsForBg (bg1 bg2 : Hsl) (n : ℕ) (rs : List ℚ) :
    List Hsl × List ℚ :=
  let avgL := (bg1.l + bg2.l) / 2
  let baseHue := (bg1.h + bg2.h) / 2
  if avgL > 55 then pickDarkLoop baseHue n rs else pickLightLoop baseHue n rs

/-- Polarity of the outline / shadow colors (the fixed rgba strings of
App.js lines 183 and 190). -/
inductive Tone where
  | black
  | white
deriving DecidableEq

/-- Outline stroke style (App.js line 190):
`avgBgL > 55 ? "rgba(0,0,0,0.45)" : "rgba(255,255,255,0.45)"`. -/
def outlineTone (avgL : ℚ) : Tone := if avgL > 55 then .black else .white

/-- Both outline rgba strings carry alpha `0.45` (App.js line 190). -/
def outlineAlpha : ℚ := 45 / 100

/-- `shadowIsLight = avgBgL < 55` (App.js line 182). -/
def shadowIsLight (avgL : ℚ) : Bool := avgL < 55

/-- Shadow color polarity (App.js line 183):
`shadowIsLight ? "rgba(255,255,255,0.25)" : "rgba(0,0,0,0.35)"`. -/
def shadowTone (avgL : ℚ) : Tone :=
  if shadowIsLight avgL then .white else .black

/-- Shadow alpha from the same rgba strings (App.js line 183). -/
def shadowAlpha (avgL : ℚ) : ℚ :=
  if shadowIsLight avgL then 25 / 100 else 35 / 100

/-- `ctx.shadowBlur = Math.round(fontSize * 0.12)` (App.js line 184);
`fontSize` is an integer. -/
def shadowBlur (fontSize : ℤ) : ℤ := jsRound ((fontSize : ℚ) * (12 / 100))

/-! ## Arc layout (App.js lines 76-125 `drawTextOnArc`, and the inline
arc path of `generateImage`, lines 220-245).

`m : Char → ℚ` stands for `ctx.measureText(ch).width` under the active
font; `sf` is the spacing factor, `arc` the (clamped) arc span, `fs` the
font size in pixels. -/

/-- Adjusted per-glyph widths: `widths.map(w => w * spacingFactor)`
(App.js lines 221-222). -/
def adjWidths (m : Char → ℚ) (text : String) (sf : ℚ) : List ℚ :=
  text.toList.map (fun c => m c * sf)

/-- `sumWidth = adjWidths.reduce((a, b) => a + b, 0)` (App.js line 223). -/
def sumWidth (m : Char → ℚ) (text : String) (sf : ℚ) : ℚ :=
  (adjWidths m text sf).sum

/-- `Math.max(Math.min(desiredArc, PI * 1.5), PI * 0.3)` with the bounds
kept symbolic (App.js line 225). -/
def clampArc (a lo hi : ℚ) : ℚ := max (min a hi) lo

/-- `radiusComputed = Math.max(sumWidth / desiredArcClamped, fontSize * 1.1)`
(App.js line 226). -/
def genRadius (m : Char → ℚ) (text : String) (sf arc fs : ℚ) : ℚ :=
  max (sumWidth m text sf / arc) (fs * (11 / 10))

/-- Each glyph's angular slice `charAngle = w / radiusComputed`
(App.js line 233). -/
def genCharAngles (m : Char → ℚ) (text : String) (sf arc fs : ℚ) : List ℚ :=
  (adjWidths m text sf).map (fun w => w / genRadius m text sf arc fs)

/-- Placement angles from a start angle: the cursor walk
`angle = startAngle + curr + charAngle / 2; curr += charAngle`
(App.js lines 230-244). -/
def anglesFrom (s : ℚ) : List ℚ → List ℚ
  | [] => []
  | a :: l => (s + a / 2) :: anglesFrom (s + a) l

/-- The glyph placement angles of the inline arc path of `generateImage`
(App.js lines 229-245), with `startAngle = -desiredArcClamped / 2`. -/
def genArcAngles (m : Char → ℚ) (text : String) (sf arc fs : ℚ) : List ℚ :=
  anglesFrom (-(arc / 2)) (genCharAngles m text sf arc fs)

/-- The angle at which the last glyph's slice ends:
`startAngle + Σ charAngle` (the final value of `curr` shifted by
`startAngle`). -/
def genArcEnd (m : Char → ℚ) (text : String) (sf arc fs : ℚ) : ℚ :=
  -(arc / 2) + (genCharAngles m text sf arc fs).sum

/-- Radius used by the helper `drawTextOnArc`:
`radiusComputed = sumWidth / desiredArc`, with no floor (App.js line 93). -/
def drawRadius (m : Char → ℚ) (text : String) (sf arc : ℚ) : ℚ :=
  sumWidth m text sf / arc

/-- End of the last slice in `drawTextOnArc`'s cursor walk. -/
def drawArcEnd (m : Char → ℚ) (text : String) (sf arc : ℚ) : ℚ :=
  -(arc / 2) +
    ((adjWidths m text sf).map (fun w => w / drawRadius m text sf arc)).sum

/-- What an arc-text call paints: either the fallback single centered
glyph run (`ctx.fillText(text, cx, cy)`) or per-glyph placements. -/
inductive ArcRender where
  | fallbackRun (text : String)
  | glyphs (radius : ℚ) (angles : List ℚ)
deriving DecidableEq

/-- `drawTextOnArc` (App.js lines 76-125): if `sumWidth ≤ 0` it falls
back to one centered run; otherwise it walks the arc with
`radius = sumWidth / desiredArc`. -/
def drawTextOnArc (m : Char → ℚ) (text : String) (arc sf : ℚ) : ArcRender :=
  if sumWidth m text sf ≤ 0 then .fallbackRun text
  else
    .glyphs (drawRadius m text sf arc)
      (anglesFrom (-(arc / 2))
        ((adjWidths m text sf).map (fun w => w / drawRadius m text sf arc)))

/-- The inline arc path of `generateImage` (App.js lines 220-245): it has
no `sumWidth ≤ 0` test and always walks the arc, with the floored radius. -/
def genArcRender (m : Char → ℚ) (text : String) (sf arc fs : ℚ) : ArcRender :=
  .glyphs (genRadius m text sf arc fs) (genArcAngles m text sf arc fs)

/-! ## Straight layout (App.js lines 256-279). -/

/-- Split a character list at every space, JS `"…".split(" ")` semantics
(empty segments kept, `[] ↦ [[]]`). -/
def splitChars : List Char → List (List Char)
  | [] => [[]]
  | c :: cs =>
    if c = ' ' then [] :: splitChars cs
    else
      match splitChars cs with
      | [] => [[c]]
      | t :: ts => (c :: t) :: ts

/-- `prompt.split(" ")` (App.js line 258). -/
def wordsOf (s : String) : List String := (splitChars s.toList).map String.mk

/-- The greedy wrap loop (App.js lines 260-271), carrying `currentLine`;
`m` is `ctx.measureText(testLine).width`. JS truthiness of
`currentLine` is non-emptiness. -/
def wrapLoop (m : String → ℚ) (maxW : ℚ) : List String → String → List String
  | [], cl => if cl = "" then [] else [cl]
  | w :: ws, cl =>
    let testLine := if cl = "" then w else cl ++ " " ++ w
    if m testLine > maxW ∧ cl ≠ "" then cl :: wrapLoop m maxW ws w
    else wrapLoop m maxW ws testLine

/-- The committed lines of the straight-mode wrap, starting from the
empty `currentLine` (App.js lines 259-271). -/
def wrapWords (m : String → ℚ) (maxW : ℚ) (words : List String) :
    List String :=
  wrapLoop m maxW words ""

/-! ## Stroke-failure control flow (claim about error handling).

`fails i = true` means `ctx.strokeText` throws for the glyph at index
`i`. Each run returns the characters whose `fillText` executed, the
characters whose `strokeText` executed, and (for the uncaught variant)
whether the loop ran to completion without an exception escaping. -/

/-- The loop of `drawTextOnArc` (App.js lines 101-122): `fillText`, then
`strokeText` inside `try { … } catch (e) {}` — a failing stroke is
swallowed and the loop continues. -/
def runCaught : List Char → (ℕ → Bool) → ℕ → List Char × List Char
  | [], _, _ => ([], [])
  | c :: cs, fails, i =>
    (c :: (runCaught cs fails (i + 1)).1,
     if fails i then (runCaught cs fails (i + 1)).2
     else c :: (runCaught cs fails (i + 1)).2)

/-- The inline loops of `generateImage` (App.js lines 231-245 arc,
275-279 straight): `fillText` then a bare `strokeText`; an exception
propagates to the top-level `catch` (line 287), ending the render. -/
def runUncaught : List Char → (ℕ → Bool) → ℕ → List Char × List Char × Bool
  | [], _, _ => ([], [], true)
  | c :: cs, fails, i =>
    if fails i then ([c], [], false)
    else
      (c :: (runUncaught cs fails (i + 1)).1,
       c :: (runUncaught cs fails (i + 1)).2.1,
       (runUncaught cs fails (i + 1)).2.2)

/-! ## Component state (App.js lines 12-14, 138-293). -/

/-- The React state the render touches, plus a paint counter standing for
mutations of the hidden canvas. -/
structure AppState where
  loading : Bool
  imageUrl : String
  canvasPaints : ℕ
deriving DecidableEq

/-- `generateImage`'s observable state effect (App.js lines 138-293):
the guard `if (!prompt.trim()) return;` leaves everything untouched;
otherwise the deferred render paints the canvas, stores the data URL
(`url`, produced by the external `toDataURL`), and clears `loading`. -/
def generateImageStep (prompt url : String) (s : AppState) : AppState :=
  if jsTrim prompt = "" then s
  else
    { loading := false, imageUrl := url, canvasPaints := s.canvasPaints + 1 }

/-! ## The full render computation (App.js lines 144-286). -/

/-- The font catalog (App.js lines 18-27). -/
def fonts : List String :=
  ["\"Poppins\", Arial, sans-serif",
   "\"Montserrat\", Arial, sans-serif",
   "\"Arial Black\", Gadget, sans-serif",
   "\"Impact\", Charcoal, sans-serif",
   "\"Comic Sans MS\", cursive, sans-serif",
   "\"Georgia\", serif",
   "\"Courier New\", Courier, monospace",
   "\"Verdana\", Geneva, sans-serif"]

/-- The layout half of the render: the arc path's geometry or the
straight path's wrapped lines with their vertical offsets. -/
inductive LayoutOut where
  | arc (cy spacing radius : ℚ) (angles : List ℚ)
  | straight (lines : List String) (offsets : List ℚ)
deriving DecidableEq

/-- Everything `generateImage` computes before painting. -/
structure RenderResult where
  bg1 : Hsl
  bg2 : Hsl
  textColors : List Hsl
  fontIndex : ℕ
  fontSize : ℤ
  outline : Tone
  shadow : Tone
  shadowBlurPx : ℤ
  rotate : ℚ
  layout : LayoutOut
deriving DecidableEq

/-- The render computation of `generateImage` (App.js lines 144-286) as a
pure function of the prompt, the glyph measurements
(`measure fontIndex fontSize text` = `ctx.measureText(text).width` under
that font), the value of `Math.PI`, and the stream of `Math.random()`
draws, consumed in source order: background (6), stop count, text colors
(3 per stop), font family, font size, curve-vs-straight, rotation,
desired arc; then on the curve path the vertical jitter and (for prompts
of at most 20 characters) the spacing factor. -/
def generateImageRender (prompt : String) (measure : ℕ → ℤ → String → ℚ)
    (pi : ℚ) (rs : List ℚ) : RenderResult :=
  let bgStep := pickBgColors rs
  let bg := bgStep.1
  let rs := bgStep.2
  let stopsDraw := take1 rs
  let stops := 2 + (randInt 0 1 stopsDraw.1).toNat
  let rs := stopsDraw.2
  let textStep := pickTextColorsForBg bg.1 bg.2 stops rs
  let textColorObjs := textStep.1
  let rs := textStep.2
  let fontDraw := take1 rs
  let fontIndex := (randInt 0 7 fontDraw.1).toNat
  let rs := fontDraw.2
  let sizeDraw := take1 rs
  let fontSize := jsRound ((randInt 70 140 sizeDraw.1 : ℚ) * (12 / 10))
  let rs := sizeDraw.2
  let avgBgL := (bg.1.l + bg.2.l) / 2
  let curveDraw := take1 rs
  let useCurve := decide (curveDraw.1 > 7 / 20)
  let rs := curveDraw.2
  let rotDraw := take1 rs
  let rotateAngle := rand (-(7 / 20)) (7 / 20) rotDraw.1
  let rs := rotDraw.2
  let arcDraw := take1 rs
  let desiredArc := rand (pi * (11 / 20)) (pi * (19 / 20)) arcDraw.1
  let rs := arcDraw.2
  let mLine := measure fontIndex fontSize
  let mChar := fun c : Char => mLine c.toString
  let layout :=
    if useCurve then
      let cyDraw := take1 rs
      let cy := (900 : ℚ) / 2 - rand (-20) 40 cyDraw.1
      let rs := cyDraw.2
      let sf :=
        if prompt.length > 20 then (114 : ℚ) / 100
        else rand (106 / 100) (118 / 100) (take1 rs).1
      let arcClamped := clampArc desiredArc (pi * (3 / 10)) (pi * (3 / 2))
      LayoutOut.arc cy sf (genRadius mChar prompt sf arcClamped (fontSize : ℚ))
        (genArcAngles mChar prompt sf arcClamped (fontSize : ℚ))
    else
      let lines := wrapWords mLine ((1400 : ℚ) * (8 / 10)) (wordsOf prompt)
      let lineHeight := (fontSize : ℚ) * (112 / 100)
      let startY := -(((lines.length : ℚ) - 1) * lineHeight) / 2
      LayoutOut.straight lines
        ((List.range lines.length).map (fun i => startY + (i : ℚ) * lineHeight))
  { bg1 := bg.1, bg2 := bg.2, textColors := textColorObjs,
    fontIndex := fontIndex, fontSize := fontSize,
    outline := outlineTone avgBgL, shadow := shadowTone avgBgL,
    shadowBlurPx := shadowBlur fontSize, rotate := rotateAngle,
    layout := layout }

/-! ## Helper lemmas. -/

theorem randInt_bounds (lo hi : ℤ) (r : ℚ) (hlh : lo ≤ hi)
    (h0 : 0 ≤ r) (h1 : r < 1) :
    lo ≤ randInt lo hi r ∧ randInt lo hi r ≤ hi := by
  have hcast : (lo : ℚ) ≤ (hi : ℚ) := by exact_mod_cast hlh
  constructor
  · rw [randInt, Int.le_floor, rand]
    have : 0 ≤ r * ((hi : ℚ) + 1 - lo) := by
      apply mul_nonneg h0
      linarith
    linarith
  · have : randInt lo hi r < hi + 1 := by
      rw [randInt, Int.floor_lt, rand]
      push_cast
      have hd : (0 : ℚ) < (hi : ℚ) + 1 - lo := by linarith
      have := mul_lt_mul_of_pos_right h1 hd
      linarith
    omega

theorem take1_fst_bound (rs : List ℚ) (h : ∀ r ∈ rs, 0 ≤ r ∧ r < 1) :
    0 ≤ (take1 rs).1 ∧ (take1 rs).1 < 1 := by
  cases rs with
  | nil => norm_num [take1]
  | cons r t => simpa [take1] using h r (List.mem_cons_self r t)

theorem take1_snd_bound (rs : List ℚ) (h : ∀ r ∈ rs, 0 ≤ r ∧ r < 1) :
    ∀ r ∈ (take1 rs).2, 0 ≤ r ∧ r < 1 := by
  cases rs with
  | nil => simp [take1]
  | cons r t =>
    intro x hx
    exact h x (List.mem_cons_of_mem r hx)

theorem anglesFrom_length (s : ℚ) (l : List ℚ) :
    (anglesFrom s l).length = l.length := by
  induction l generalizing s with
  | nil => rfl
  | cons a t ih => simp [anglesFrom, ih]

theorem anglesFrom_chain_le (s : ℚ) (l : List ℚ) (h : ∀ a ∈ l, 0 ≤ a) :
    List.Chain' (· ≤ ·) (anglesFrom s l) := by
  induction l generalizing s with
  | nil => simp [anglesFrom]
  | cons a t ih =>
    rw [anglesFrom, List.chain'_cons']
    refine ⟨?_, ih (s + a) (fun x hx => h x (List.mem_cons_of_mem a hx))⟩
    intro y hy
    cases t with
    | nil => simp [anglesFrom] at hy
    | cons b t' =>
      rw [anglesFrom] at hy
      simp only [List.head?_cons, Option.mem_def, Option.some.injEq] at hy
      have ha : 0 ≤ a := h a (List.mem_cons_self a _)
      have hb : 0 ≤ b := h b (List.mem_cons_of_mem a (List.mem_cons_self b t'))
      rw [← hy]
      linarith

theorem anglesFrom_chain_lt (s : ℚ) (l : List ℚ) (h : ∀ a ∈ l, 0 < a) :
    List.Chain' (· < ·) (anglesFrom s l) := by
  induction l generalizing s with
  | nil => simp [anglesFrom]
  | cons a t ih =>
    rw [anglesFrom, List.chain'_cons']
    refine ⟨?_, ih (s + a) (fun x hx => h x (List.mem_cons_of_mem a hx))⟩
    intro y hy
    cases t with
    | nil => simp [anglesFrom] at hy
    | cons b t' =>
      rw [anglesFrom] at hy
      simp only [List.head?_cons, Option.mem_def, Option.some.injEq] at hy
      have ha : 0 < a := h a (List.mem_cons_self a _)
      have hb : 0 < b := h b (List.mem_cons_of_mem a (List.mem_cons_self b t'))
      rw [← hy]
      linarith

theorem sum_map_div (l : List ℚ) (r : ℚ) :
    (l.map (fun w => w / r)).sum = l.sum / r := by
  induction l with
  | nil => simp
  | cons a t ih => simp [ih, add_div]

theorem adjWidths_nonneg (m : Char → ℚ) (text : String) (sf : ℚ)
    (hm : ∀ c ∈ text.toList, 0 ≤ m c) (hsf : 0 ≤ sf) :
    ∀ w ∈ adjWidths m text sf, 0 ≤ w := by
  intro w hw
  rw [adjWidths] at hw
  obtain ⟨c, hc, rfl⟩ := List.mem_map.1 hw
  exact mul_nonneg (hm c hc) hsf

theorem sumWidth_nonneg (m : Char → ℚ) (text : String) (sf : ℚ)
    (hm : ∀ c ∈ text.toList, 0 ≤ m c) (hsf : 0 ≤ sf) :
    0 ≤ sumWidth m text sf :=
  List.sum_nonneg (adjWidths_nonneg m text sf hm hsf)

theorem genRadius_pos (m : Char → ℚ) (text : String) (sf arc fs : ℚ)
    (hfs : 0 < fs) : 0 < genRadius m text sf arc fs :=
  lt_of_lt_of_le (by linarith : (0 : ℚ) < fs * (11 / 10))
    (le_max_right _ _)

theorem string_toList_append (a b : String) :
    (a ++ b).toList = a.toList ++ b.toList := by
  cases a
  cases b
  rfl

theorem string_mk_toList (s : String) : String.mk s.toList = s := by
  cases s
  rfl

theorem string_toList_append_space (a b : String) :
    (a ++ " " ++ b).toList = a.toList ++ ' ' :: b.toList := by
  rw [string_toList_append, string_toList_append]
  simp

theorem append_space_ne_empty (a b : String) : a ++ " " ++ b ≠ "" := by
  intro h
  have h2 := congrArg String.toList h
  rw [string_toList_append_space] at h2
  simp at h2

theorem splitChars_ne_nil (l : List Char) : splitChars l ≠ [] := by
  match l with
  | [] => simp [splitChars]
  | c :: cs =>
    rw [splitChars]
    split
    · simp
    · split <;> simp

theorem splitChars_append (a b : List Char) :
    splitChars (a ++ ' ' :: b) = splitChars a ++ splitChars b := by
  induction a with
  | nil => simp [splitChars]
  | cons c cs ih =>
    rcases hcs : splitChars cs with _ | ⟨t, ts⟩
    · exact absurd hcs (splitChars_ne_nil cs)
    · by_cases hc : c = ' '
      · simp [splitChars, hc, ih]
      · simp only [List.cons_append, splitChars, if_neg hc, List.append_eq,
          ih, hcs]

theorem splitChars_no_space (l : List Char) (h : ' ' ∉ l) :
    splitChars l = [l] := by
  induction l with
  | nil => rfl
  | cons c cs ih =>
    have hc : ¬c = ' ' := by
      intro hcc
      exact h (hcc ▸ List.mem_cons_self c cs)
    have hcs := ih (fun hm => h (List.mem_cons_of_mem c hm))
    simp [splitChars, hc, hcs]

theorem wordsOf_append_space (a b : String) :
    wordsOf (a ++ " " ++ b) = wordsOf a ++ wordsOf b := by
  rw [wordsOf, wordsOf, wordsOf, string_toList_append_space, splitChars_append,
    List.map_append]

theorem wordsOf_single (w : String) (h : ' ' ∉ w.toList) :
    wordsOf w = [w] := by
  rw [wordsOf, splitChars_no_space w.toList h]
  simp [string_mk_toList]

theorem wrapLoop_width (m : String → ℚ) (maxW : ℚ) (Q : String → Prop) :
    ∀ (ws : List String) (cl : String), (cl ≠ "" → m cl ≤ maxW ∨ Q cl) →
    (∀ w ∈ ws, Q w) →
    ∀ line ∈ wrapLoop m maxW ws cl, m line ≤ maxW ∨ Q line := by
  intro ws
  induction ws with
  | nil =>
    intro cl hcl _ line hline
    rw [wrapLoop] at hline
    by_cases h : cl = ""
    · rw [if_pos h] at hline
      simp at hline
    · rw [if_neg h] at hline
      rcases List.mem_singleton.1 hline with rfl
      exact hcl h
  | cons w ws ih =>
    intro cl hcl hq line hline
    rw [wrapLoop] at hline
    by_cases hcond : m (if cl = "" then w else cl ++ " " ++ w) > maxW ∧ cl ≠ ""
    · rw [if_pos hcond] at hline
      rcases List.mem_cons.1 hline with rfl | hline'
      · exact hcl hcond.2
      · refine ih w (fun _ => Or.inr (hq w (List.mem_cons_self w ws)))
          (fun x hx => hq x (List.mem_cons_of_mem w hx)) line hline'
    · rw [if_neg hcond] at hline
      refine ih (if cl = "" then w else cl ++ " " ++ w) ?_
        (fun x hx => hq x (List.mem_cons_of_mem w hx)) line hline
      intro hne
      by_cases h : cl = ""
      · rw [if_pos h]
        exact Or.inr (hq w (List.mem_cons_self w ws))
      · rw [if_neg h]
        rw [if_neg h] at hcond
        push_neg at hcond
        exact Or.inl (not_lt.1 fun hgt => h (hcond hgt))

theorem pickDarkLoop_lightness (baseHue : ℚ) :
    ∀ (n : ℕ) (rs : List ℚ), (∀ r ∈ rs, 0 ≤ r ∧ r < 1) →
    ∀ c ∈ (pickDarkLoop baseHue n rs).1, 8 ≤ c.l ∧ c.l ≤ 35 := by
  intro n
  induction n with
  | zero =>
    intro rs _ c hc
    simp [pickDarkLoop] at hc
  | succ k ih =>
    intro rs hrs c hc
    rw [pickDarkLoop] at hc
    have h1 := take1_snd_bound rs hrs
    have h2 := take1_snd_bound _ h1
    have h3 := take1_snd_bound _ h2
    rcases List.mem_cons.1 hc with rfl | hc'
    · have hr3 := take1_fst_bound _ h2
      have hb := randInt_bounds 8 35 _ (by norm_num) hr3.1 hr3.2
      dsimp only
      constructor
      · exact_mod_cast hb.1
      · exact_mod_cast hb.2
    · exact ih _ h3 c hc'

theorem pickLightLoop_lightness (baseHue : ℚ) :
    ∀ (n : ℕ) (rs : List ℚ), (∀ r ∈ rs, 0 ≤ r ∧ r < 1) →
    ∀ c ∈ (pickLightLoop baseHue n rs).1, 68 ≤ c.l ∧ c.l ≤ 98 := by
  intro n
  induction n with
  | zero =>
    intro rs _ c hc
    simp [pickLightLoop] at hc
  | succ k ih =>
    intro rs hrs c hc
    rw [pickLightLoop] at hc
    have h1 := take1_snd_bound rs hrs
    have h2 := take1_snd_bound _ h1
    have h3 := take1_snd_bound _ h2
    rcases List.mem_cons.1 hc with rfl | hc'
    · have hr3 := take1_fst_bound _ h2
      have hb := randInt_bounds 68 98 _ (by norm_num) hr3.1 hr3.2
      dsimp only
      constructor
      · exact_mod_cast hb.1
      · exact_mod_cast hb.2
    · exact ih _ h3 c hc'

theorem wrapLoop_join (m : String → ℚ) (maxW : ℚ) :
    ∀ (ws : List String) (cl : String),
    (∀ w ∈ ws, w ≠ "" ∧ ' ' ∉ w.toList) → cl ≠ "" →
    ((wrapLoop m maxW ws cl).map wordsOf).flatten = wordsOf cl ++ ws := by
  intro ws
  induction ws with
  | nil =>
    intro cl _ hcl
    simp [wrapLoop, hcl]
  | cons w ws ih =>
    intro cl hws hcl
    obtain ⟨hw1, hw2⟩ := hws w (List.mem_cons_self w ws)
    have hws' : ∀ x ∈ ws, x ≠ "" ∧ ' ' ∉ x.toList :=
      fun x hx => hws x (List.mem_cons_of_mem w hx)
    rw [wrapLoop, if_neg hcl]
    by_cases hcond : m (cl ++ " " ++ w) > maxW ∧ cl ≠ ""
    · rw [if_pos hcond]
      simp only [List.map_cons, List.flatten_cons]
      rw [ih w hws' hw1, wordsOf_single w hw2]
      simp
    · rw [if_neg hcond]
      rw [ih (cl ++ " " ++ w) hws' (append_space_ne_empty cl w),
        wordsOf_append_space, wordsOf_single w hw2]
      simp

theorem runCaught_fst (chars : List Char) (fails : ℕ → Bool) (i : ℕ) :
    (runCaught chars fails i).1 = chars := by
  induction chars generalizing i with
  | nil => rfl
  | cons a t ih => simp [runCaught, ih]

/-! ## Claim theorems. -/

/-- C9: a prompt that is empty or whitespace-only fails the
`if (!prompt.trim()) return;` guard, so `generateImage` performs no
render: the canvas is not painted, `loading` is never set, and
`imageUrl` keeps its value — the state is unchanged. -/
theorem empty_prompt_noop (prompt url : String) (s : AppState)
    (h : jsTrim prompt = "") :
    generateImageStep prompt url s = s ∧
      (generateImageStep prompt url s).imageUrl = s.imageUrl ∧
      (generateImageStep prompt url s).loading = s.loading ∧
      (generateImageStep prompt url s).canvasPaints = s.canvasPaints := by
  have he : generateImageStep prompt url s = s := by
    rw [generateImageStep, if_pos h]
  exact ⟨he, by rw [he], by rw [he], by rw [he]⟩

/-- C9 witness: the whitespace prompt `"  "` at a concrete state. -/
theorem empty_prompt_noop_witness :
    jsTrim "  " = "" ∧
      generateImageStep "  " "data:x" ⟨false, "", 0⟩ = ⟨false, "", 0⟩ :=
  ⟨by decide, (empty_prompt_noop "  " "data:x" ⟨false, "", 0⟩ (by decide)).1⟩

/-- C10: the render computation is deterministic given its inputs: two
runs of `generateImageRender` seeing the same prompt, the same glyph
measurements, the same `Math.PI`, and the same stream of random draws
produce the same background pair, text stops, font choice, size, layout
mode and geometry. -/
theorem render_deterministic (p1 p2 : String)
    (m1 m2 : ℕ → ℤ → String → ℚ) (pi1 pi2 : ℚ) (rs1 rs2 : List ℚ)
    (hp : p1 = p2) (hm : m1 = m2) (hpi : pi1 = pi2) (hrs : rs1 = rs2) :
    generateImageRender p1 m1 pi1 rs1 = generateImageRender p2 m2 pi2 rs2 := by
  subst hp
  subst hm
  subst hpi
  subst hrs
  rfl

/-- C10 witness: a concrete prompt, measurement function, and draw
stream. -/
theorem render_deterministic_witness :
    "hi there" = "hi there" ∧
      (fun (_ : ℕ) (_ : ℤ) (s : String) => (s.length : ℚ)) =
        (fun (_ : ℕ) (_ : ℤ) (s : String) => (s.length : ℚ)) ∧
      (3 : ℚ) = 3 ∧ ([(0 : ℚ), 0, 0] : List ℚ) = [0, 0, 0] ∧
      generateImageRender "hi there"
          (fun _ _ s => (s.length : ℚ)) 3 [0, 0, 0] =
        generateImageRender "hi there"
          (fun _ _ s => (s.length : ℚ)) 3 [0, 0, 0] :=
  ⟨rfl, rfl, rfl, rfl,
    render_deterministic "hi there" "hi there"
      (fun _ _ s => (s.length : ℚ)) (fun _ _ s => (s.length : ℚ))
      3 3 [0, 0, 0] [0, 0, 0] rfl rfl rfl rfl⟩

/-- C8 counterexample: in the live inline loop of `generateImage`
(no local try/catch), a stroke failure at the first glyph stops the
render: only the first glyph is filled, the remaining glyphs are never
drawn, and the pass does not complete — contradicting the claim that the
failure is caught locally and rendering continues. -/
theorem stroke_failure_aborts_cex :
    runUncaught ['H', 'I'] (fun n => n == 0) 0 = (['H'], [], false) ∧
      (runUncaught ['H', 'I'] (fun n => n == 0) 0).1 ≠ ['H', 'I'] := by
  decide

/-- C8 (amended): only the dead helper `drawTextOnArc` wraps
`strokeText` in a per-glyph try/catch — there every glyph's fill
completes whatever strokes fail; in the inline arc and straight loops
that `generateImage` actually runs, a stroke failure throws to the
top-level catch: the failing glyph is the last one filled, its stroke
and all later glyphs are skipped, and the render does not complete. -/
theorem stroke_failure_handling (chars : List Char) (fails : ℕ → Bool)
    (i : ℕ) (c : Char) (cs : List Char) (h : fails i = true) :
    (runCaught chars fails i).1 = chars ∧
      runUncaught (c :: cs) fails i = ([c], [], false) := by
  constructor
  · exact runCaught_fst chars fails i
  · simp [runUncaught, h]

/-- C8 witness: stroke failure at index 0 of a two-glyph render. -/
theorem stroke_failure_handling_witness :
    ((fun n => n == 0) 0) = true ∧
      (runCaught ['H', 'I'] (fun n => n == 0) 0).1 = ['H', 'I'] ∧
      runUncaught ('H' :: ['I']) (fun n => n == 0) 0 = (['H'], [], false) :=
  ⟨by decide,
    (stroke_failure_handling ['H', 'I'] (fun n => n == 0) 0 'H' ['I']
      (by decide)).1,
    (stroke_failure_handling ['H', 'I'] (fun n => n == 0) 0 'H' ['I']
      (by decide)).2⟩

/-- C5 counterexample: with both background lightness samples at 60
(`avgL = 60 > 55`) the outline is black-ish and the shadow is also
black-ish — the same polarity, not the opposite one the claim requires;
and at `fontSize = 85` the blur is `Math.round(10.2) = 10`, not exactly
`0.12 × fontSize`. -/
theorem shadow_same_polarity_cex :
    shadowTone ((60 + 60) / 2) = outlineTone ((60 + 60) / 2) ∧
      outlineTone ((60 + 60) / 2) = Tone.black ∧
      (shadowBlur 85 : ℚ) ≠ (12 / 100) * 85 := by
  refine ⟨?_, ?_, ?_⟩
  · norm_num [shadowTone, outlineTone, shadowIsLight]
  · norm_num [outlineTone]
  · norm_num [shadowBlur, jsRound]

/-- C5 (amended): the outline is black-ish at alpha 0.45 exactly when
`avgL > 55` and white-ish at alpha 0.45 otherwise; the shadow has the
SAME polarity as the outline whenever `avgL ≠ 55` (black at alpha 0.35
on light backgrounds, white at alpha 0.25 on dark ones — only at
`avgL = 55` exactly do the two predicates `avgL > 55` and `avgL < 55`
disagree), the shadow alpha lies in [0.25, 0.35] and is lower than the
outline's, and the blur radius is `Math.round(0.12 × fontSizePx)`. -/
theorem outline_shadow_policy (avgL : ℚ) (fs : ℤ) (h : avgL ≠ 55) :
    (outlineTone avgL = Tone.black ↔ 55 < avgL) ∧
      outlineAlpha = 45 / 100 ∧
      25 / 100 ≤ shadowAlpha avgL ∧ shadowAlpha avgL ≤ 35 / 100 ∧
      shadowAlpha avgL < outlineAlpha ∧
      shadowTone avgL = outlineTone avgL ∧
      shadowBlur fs = jsRound ((fs : ℚ) * (12 / 100)) := by
  rcases lt_trichotomy avgL 55 with hl | he | hg
  · refine ⟨?_, rfl, ?_, ?_, ?_, ?_, rfl⟩ <;>
      simp [outlineTone, shadowTone, shadowAlpha, outlineAlpha,
        shadowIsLight, hl, not_lt.2 hl.le, asymm hl] <;> norm_num
  · exact absurd he h
  · refine ⟨?_, rfl, ?_, ?_, ?_, ?_, rfl⟩ <;>
      simp [outlineTone, shadowTone, shadowAlpha, outlineAlpha,
        shadowIsLight, hg, not_lt.2 hg.le, asymm hg] <;> norm_num

/-- C5 witness: `avgL = 60`, `fontSize = 85`. -/
theorem outline_shadow_policy_witness :
    (60 : ℚ) ≠ 55 ∧
      ((outlineTone 60 = Tone.black ↔ (55 : ℚ) < 60) ∧
        outlineAlpha = 45 / 100 ∧
        25 / 100 ≤ shadowAlpha 60 ∧ shadowAlpha 60 ≤ 35 / 100 ∧
        shadowAlpha 60 < outlineAlpha ∧
        shadowTone 60 = outlineTone 60 ∧
        shadowBlur 85 = jsRound ((85 : ℚ) * (12 / 100))) :=
  ⟨by norm_num, outline_shadow_policy 60 85 (by norm_num)⟩

/-- C3: every text color stop produced by `pickTextColorsForBg` has
lightness in [8, 35] when the average background lightness exceeds 55,
and in [68, 98] otherwise; in particular no stop's lightness ever lands
in the mid-band [36, 67]. Holds for any stop count and any stream of
`Math.random()` draws (each in [0, 1)). -/
theorem text_colors_lightness_banded (bg1 bg2 : Hsl) (n : ℕ)
    (rs : List ℚ) (hrs : ∀ r ∈ rs, 0 ≤ r ∧ r < 1) :
    ∀ c ∈ (pickTextColorsForBg bg1 bg2 n rs).1,
      ((bg1.l + bg2.l) / 2 > 55 → 8 ≤ c.l ∧ c.l ≤ 35) ∧
      ((bg1.l + bg2.l) / 2 ≤ 55 → 68 ≤ c.l ∧ c.l ≤ 98) ∧
      ¬(36 ≤ c.l ∧ c.l ≤ 67) := by
  intro c hc
  rw [pickTextColorsForBg] at hc
  by_cases h55 : (bg1.l + bg2.l) / 2 > 55
  · rw [if_pos h55] at hc
    have hb := pickDarkLoop_lightness ((bg1.h + bg2.h) / 2) n rs hrs c hc
    refine ⟨fun _ => hb, fun hle => absurd h55 (not_lt.2 hle), ?_⟩
    rintro ⟨h36, -⟩
    linarith [hb.2]
  · rw [if_neg h55] at hc
    have hb := pickLightLoop_lightness ((bg1.h + bg2.h) / 2) n rs hrs c hc
    refine ⟨fun hgt => absurd hgt h55, fun _ => hb, ?_⟩
    rintro ⟨-, h67⟩
    linarith [hb.1]

/-- C3 witness: a light background pair (both stops at lightness 60) and
the all-zero draw stream. -/
theorem text_colors_lightness_banded_witness :
    (∀ r ∈ [(0 : ℚ), 0, 0], 0 ≤ r ∧ r < 1) ∧
      ∀ c ∈ (pickTextColorsForBg ⟨0, 0, 60⟩ ⟨0, 0, 60⟩ 1 [0, 0, 0]).1,
        (((⟨0, 0, 60⟩ : Hsl).l + (⟨0, 0, 60⟩ : Hsl).l) / 2 > 55 →
          8 ≤ c.l ∧ c.l ≤ 35) ∧
        (((⟨0, 0, 60⟩ : Hsl).l + (⟨0, 0, 60⟩ : Hsl).l) / 2 ≤ 55 →
          68 ≤ c.l ∧ c.l ≤ 98) ∧
        ¬(36 ≤ c.l ∧ c.l ≤ 67) :=
  ⟨by decide,
    text_colors_lightness_banded ⟨0, 0, 60⟩ ⟨0, 0, 60⟩ 1 [0, 0, 0]
      (by decide)⟩

/-- C7: with `arcSpanClamped = clampArc arc (0.3π) (1.5π)` the clamped
span always lies in [0.3π, 1.5π]; the sampled span
`rand(0.55π, 0.95π)` lies in [0.55π, 0.95π) for any draw in [0, 1) and
is left unchanged by the clamp; and the arc radius equals
`max(sumWidth / arcSpanClamped, fontSize × 1.1)`, hence is always at
least `fontSize × 1.1`. -/
theorem radius_floor_and_clamp (pi arc : ℚ) (m : Char → ℚ)
    (text : String) (sf fs r : ℚ) (hpi : 0 < pi) (h0 : 0 ≤ r)
    (h1 : r < 1) :
    pi * (3 / 10) ≤ clampArc arc (pi * (3 / 10)) (pi * (3 / 2)) ∧
      clampArc arc (pi * (3 / 10)) (pi * (3 / 2)) ≤ pi * (3 / 2) ∧
      genRadius m text sf (clampArc arc (pi * (3 / 10)) (pi * (3 / 2))) fs =
        max (sumWidth m text sf /
              clampArc arc (pi * (3 / 10)) (pi * (3 / 2)))
          (fs * (11 / 10)) ∧
      fs * (11 / 10) ≤
        genRadius m text sf (clampArc arc (pi * (3 / 10)) (pi * (3 / 2))) fs ∧
      (pi * (11 / 20) ≤ arc → arc ≤ pi * (19 / 20) →
        clampArc arc (pi * (3 / 10)) (pi * (3 / 2)) = arc) ∧
      pi * (11 / 20) ≤ rand (pi * (11 / 20)) (pi * (19 / 20)) r ∧
      rand (pi * (11 / 20)) (pi * (19 / 20)) r < pi * (19 / 20) := by
  have hd : (0 : ℚ) < pi * (19 / 20) - pi * (11 / 20) := by linarith
  have hr0 : 0 ≤ r * (pi * (19 / 20) - pi * (11 / 20)) :=
    mul_nonneg h0 hd.le
  have hr1 : r * (pi * (19 / 20) - pi * (11 / 20)) <
      1 * (pi * (19 / 20) - pi * (11 / 20)) :=
    mul_lt_mul_of_pos_right h1 hd
  refine ⟨le_max_right _ _, max_le (min_le_right _ _) (by linarith), rfl,
    le_max_right _ _, ?_, ?_, ?_⟩
  · intro hlo hhi
    rw [clampArc, min_eq_left (by linarith), max_eq_left (by linarith)]
  · rw [rand]
    linarith
  · rw [rand]
    linarith

/-- C7 witness: `π := 3`, a span of 2 (inside the sampled range
[0.55π, 0.95π] = [1.65, 2.85]), draw 0, and concrete layout inputs; the
clamp leaves the span unchanged. -/
theorem radius_floor_and_clamp_witness :
    (0 : ℚ) < 3 ∧ (0 : ℚ) ≤ 0 ∧ (0 : ℚ) < 1 ∧
      ((3 : ℚ) * (3 / 10) ≤ clampArc 2 (3 * (3 / 10)) (3 * (3 / 2)) ∧
        clampArc 2 (3 * (3 / 10)) (3 * (3 / 2)) ≤ 3 * (3 / 2) ∧
        genRadius (fun _ => 1) "A" 1
            (clampArc 2 (3 * (3 / 10)) (3 * (3 / 2))) 84 =
          max (sumWidth (fun _ => 1) "A" 1 /
                clampArc 2 (3 * (3 / 10)) (3 * (3 / 2)))
            (84 * (11 / 10)) ∧
        (84 : ℚ) * (11 / 10) ≤
          genRadius (fun _ => 1) "A" 1
            (clampArc 2 (3 * (3 / 10)) (3 * (3 / 2))) 84 ∧
        ((3 : ℚ) * (11 / 20) ≤ 2 → (2 : ℚ) ≤ 3 * (19 / 20) →
          clampArc 2 (3 * (3 / 10)) (3 * (3 / 2)) = 2) ∧
        (3 : ℚ) * (11 / 20) ≤ rand (3 * (11 / 20)) (3 * (19 / 20)) 0 ∧
        rand (3 * (11 / 20)) (3 * (19 / 20)) 0 < 3 * (19 / 20)) ∧
      clampArc 2 (3 * (3 / 10)) (3 * (3 / 2)) = 2 := by
  have H := radius_floor_and_clamp 3 2 (fun _ => 1) "A" 1 84 0
    (by norm_num) le_rfl (by norm_num)
  exact ⟨by norm_num, le_rfl, by norm_num, H,
    H.2.2.2.2.1 (by norm_num) (by norm_num)⟩

/-- C2 counterexample: in the inline arc path `generateImage` actually
runs there is no `sumWidth ≤ 0` test: with every glyph measuring zero
width (`sumWidth = 0`) it still performs the angular computation and
produces a glyph placement (radius `84 × 1.1 = 462/5`, one angle `-1`
for span 2) instead of the claimed fallback single centered run. -/
theorem gen_arc_no_fallback_cex :
    sumWidth (fun _ => 0) "A" 1 ≤ 0 ∧
      genArcRender (fun _ => 0) "A" 1 2 84 =
        ArcRender.glyphs (462 / 5) [-1] := by
  constructor
  · norm_num [sumWidth, adjWidths]
  · have hA : "A".toList = ['A'] := rfl
    rw [genArcRender, genArcAngles, genCharAngles]
    norm_num [genRadius, sumWidth, adjWidths, hA, anglesFrom, max_def]

/-- C2 (amended): the fallback single-run path exists only in the helper
`drawTextOnArc`, which `generateImage` never calls: there `sumWidth ≤ 0`
does produce the single centered run. The inline arc path performs the
angular computation unconditionally, but its radius is
`max(sumWidth / arcSpanClamped, fontSize × 1.1) ≥ fontSize × 1.1 > 0`,
so no division by zero or NaN enters any computed angle or radius. -/
theorem arc_fallback_and_radius (m : Char → ℚ) (text : String)
    (sf arc fs : ℚ) (hsum : sumWidth m text sf ≤ 0) (hfs : 0 < fs) :
    drawTextOnArc m text arc sf = ArcRender.fallbackRun text ∧
      0 < genRadius m text sf arc fs ∧
      genArcRender m text sf arc fs =
        ArcRender.glyphs (genRadius m text sf arc fs)
          (genArcAngles m text sf arc fs) :=
  ⟨by rw [drawTextOnArc, if_pos hsum], genRadius_pos m text sf arc fs hfs,
    rfl⟩

/-- C2 witness: all-zero glyph widths, span 2, font size 84. -/
theorem arc_fallback_and_radius_witness :
    sumWidth (fun _ => (0 : ℚ)) "A" 1 ≤ 0 ∧ (0 : ℚ) < 84 ∧
      (drawTextOnArc (fun _ => 0) "A" 2 1 = ArcRender.fallbackRun "A" ∧
        (0 : ℚ) < genRadius (fun _ => 0) "A" 1 2 84 ∧
        genArcRender (fun _ => 0) "A" 1 2 84 =
          ArcRender.glyphs (genRadius (fun _ => 0) "A" 1 2 84)
            (genArcAngles (fun _ => 0) "A" 1 2 84)) :=
  ⟨by norm_num [sumWidth, adjWidths], by norm_num,
    arc_fallback_and_radius (fun _ => 0) "A" 1 2 84
      (by norm_num [sumWidth, adjWidths]) (by norm_num)⟩

/-- C1 counterexample: in the live arc path the radius floor
`fontSize × 1.1` can dominate: one glyph of adjusted width 55
(`50 × 1.1`), span 2 and font size 84 give radius `462/5`, so the last
slice ends at `-1 + 25/42 = -17/42`, not at `+arcSpan/2 = 1` — the arc
span is not fully consumed. -/
theorem arc_span_not_consumed_cex :
    genArcEnd (fun _ => 50) "A" (11 / 10) 2 84 ≠ 2 / 2 := by
  have hA : "A".toList = ['A'] := rfl
  rw [genArcEnd, genCharAngles, genRadius, sumWidth, adjWidths, hA]
  norm_num [max_def]

/-- C1 (amended): for nonnegative measured widths and spacing factor,
positive font size and positive span, the placement angles of the live
arc path are monotonically non-decreasing, and the last slice ends at
`-arcSpan/2 + sumWidth/radius ≤ +arcSpan/2`, with equality exactly when
the radius floor does not bind (`fontSize × 1.1 ≤ sumWidth / arcSpan`);
in the helper `drawTextOnArc`, whose radius is `sumWidth / arcSpan`
with no floor, the span is always exactly consumed (for positive
`sumWidth`). -/
theorem arc_layout_monotone_span (m : Char → ℚ) (text : String)
    (sf arc fs : ℚ) (hm : ∀ c ∈ text.toList, 0 ≤ m c) (hsf : 0 ≤ sf)
    (hfs : 0 < fs) (harc : 0 < arc) :
    List.Chain' (· ≤ ·) (genArcAngles m text sf arc fs) ∧
      genArcEnd m text sf arc fs ≤ arc / 2 ∧
      (fs * (11 / 10) ≤ sumWidth m text sf / arc →
        genArcEnd m text sf arc fs = arc / 2) ∧
      (0 < sumWidth m text sf → drawArcEnd m text sf arc = arc / 2) := by
  have hR := genRadius_pos m text sf arc fs hfs
  have hadj := adjWidths_nonneg m text sf hm hsf
  have hsum_eq : (genCharAngles m text sf arc fs).sum =
      sumWidth m text sf / genRadius m text sf arc fs := by
    rw [genCharAngles, sum_map_div, sumWidth]
  have hkey : ∀ s : ℚ, 0 < s → s / (s / arc) = arc := by
    intro s hs
    rw [div_div_eq_mul_div, mul_comm, mul_div_assoc,
      div_self (ne_of_gt hs), mul_one]
  refine ⟨?_, ?_, ?_, ?_⟩
  · apply anglesFrom_chain_le
    intro a ha
    rw [genCharAngles] at ha
    obtain ⟨w, hw, rfl⟩ := List.mem_map.1 ha
    exact div_nonneg (hadj w hw) hR.le
  · rw [genArcEnd, hsum_eq]
    have h1 : sumWidth m text sf / arc ≤ genRadius m text sf arc fs :=
      le_max_left _ _
    have h2 : sumWidth m text sf ≤ genRadius m text sf arc fs * arc :=
      (div_le_iff₀ harc).1 h1
    have h3 : sumWidth m text sf / genRadius m text sf arc fs ≤ arc := by
      rw [div_le_iff₀ hR]
      linarith [mul_comm (genRadius m text sf arc fs) arc]
    linarith
  · intro hfloor
    have hmax : genRadius m text sf arc fs = sumWidth m text sf / arc :=
      max_eq_left hfloor
    have hpos : 0 < sumWidth m text sf / arc :=
      lt_of_lt_of_le (by linarith) hfloor
    have hspos : 0 < sumWidth m text sf := by
      rcases div_pos_iff.1 hpos with ⟨h, -⟩ | ⟨-, h⟩
      · exact h
      · exact absurd harc (asymm h)
    rw [genArcEnd, hsum_eq, hmax, hkey _ hspos]
    ring
  · intro hspos
    rw [drawArcEnd, sum_map_div, drawRadius]
    rw [show (adjWidths m text sf).sum = sumWidth m text sf from rfl]
    rw [hkey _ hspos]
    ring

/-- C1 witness: two glyphs of width 50, spacing 1, span 2, font size 1 —
the floor does not bind, so the span is exactly consumed in both the
live path and the helper. -/
theorem arc_layout_monotone_span_witness :
    (∀ c ∈ "AB".toList, 0 ≤ (fun _ => (50 : ℚ)) c) ∧ (0 : ℚ) ≤ 1 ∧
      (0 : ℚ) < 1 ∧ (0 : ℚ) < 2 ∧
      List.Chain' (· ≤ ·) (genArcAngles (fun _ => 50) "AB" 1 2 1) ∧
      genArcEnd (fun _ => 50) "AB" 1 2 1 ≤ 2 / 2 ∧
      genArcEnd (fun _ => 50) "AB" 1 2 1 = 2 / 2 ∧
      drawArcEnd (fun _ => 50) "AB" 1 2 = 2 / 2 := by
  have H := arc_layout_monotone_span (fun _ => 50) "AB" 1 2 1 (by decide)
    (by norm_num) (by norm_num) (by norm_num)
  exact ⟨by decide, by norm_num, by norm_num, by norm_num, H.1, H.2.1,
    H.2.2.1 (by norm_num [sumWidth, adjWidths]),
    H.2.2.2 (by norm_num [sumWidth, adjWidths])⟩

/-- C6: for "HELLO" with every character measuring positive width,
positive spacing factor and font size, and the forced span π/2 (which
the defensive clamp to [0.3π, 1.5π] leaves unchanged), the live arc
path produces exactly 5 placements with strictly increasing angles, and
the first placement's angle is `-π/4 + charAngle[0]/2` — the midpoint
rule at `startAngle = -arcSpanClamped/2`. -/
theorem hello_arc_five_placements (pi : ℚ) (m : Char → ℚ) (sf fs : ℚ)
    (hpi : 0 < pi) (hH : 0 < m 'H') (hE : 0 < m 'E') (hL : 0 < m 'L')
    (hO : 0 < m 'O') (hsf : 0 < sf) (hfs : 0 < fs) :
    clampArc (pi / 2) (pi * (3 / 10)) (pi * (3 / 2)) = pi / 2 ∧
      (genArcAngles m "HELLO" sf (pi / 2) fs).length = 5 ∧
      List.Chain' (· < ·) (genArcAngles m "HELLO" sf (pi / 2) fs) ∧
      (genArcAngles m "HELLO" sf (pi / 2) fs).head? =
        some (-(pi / 4) +
          (m 'H' * sf / genRadius m "HELLO" sf (pi / 2) fs) / 2) := by
  have hR := genRadius_pos m "HELLO" sf (pi / 2) fs hfs
  refine ⟨?_, ?_, ?_, ?_⟩
  · rw [clampArc, min_eq_left (by linarith), max_eq_left (by linarith)]
  · rw [genArcAngles, anglesFrom_length, genCharAngles, List.length_map,
      adjWidths, List.length_map]
    rfl
  · apply anglesFrom_chain_lt
    intro a ha
    rw [genCharAngles] at ha
    obtain ⟨w, hw, rfl⟩ := List.mem_map.1 ha
    rw [adjWidths] at hw
    obtain ⟨c, hc, rfl⟩ := List.mem_map.1 hw
    have hc' : c ∈ ['H', 'E', 'L', 'L', 'O'] := hc
    fin_cases hc'
    · exact div_pos (mul_pos hH hsf) hR
    · exact div_pos (mul_pos hE hsf) hR
    · exact div_pos (mul_pos hL hsf) hR
    · exact div_pos (mul_pos hL hsf) hR
    · exact div_pos (mul_pos hO hsf) hR
  · have h5 : "HELLO".toList = 'H' :: ['E', 'L', 'L', 'O'] := rfl
    rw [genArcAngles, genCharAngles, adjWidths, h5]
    simp only [List.map_cons, anglesFrom, List.head?_cons,
      Option.some.injEq]
    ring

/-- C6 witness: `π := 3`, all widths 1, spacing 1, font size 1. -/
theorem hello_arc_five_placements_witness :
    (0 : ℚ) < 3 ∧ (0 : ℚ) < 1 ∧ (0 : ℚ) < 1 ∧ (0 : ℚ) < 1 ∧
      (0 : ℚ) < 1 ∧ (0 : ℚ) < 1 ∧ (0 : ℚ) < 1 ∧
      (clampArc (3 / 2) (3 * (3 / 10)) (3 * (3 / 2)) = 3 / 2 ∧
        (genArcAngles (fun _ => 1) "HELLO" 1 (3 / 2) 1).length = 5 ∧
        List.Chain' (· < ·)
          (genArcAngles (fun _ => 1) "HELLO" 1 (3 / 2) 1) ∧
        (genArcAngles (fun _ => 1) "HELLO" 1 (3 / 2) 1).head? =
          some (-(3 / 4) +
            ((1 : ℚ) * 1 /
              genRadius (fun _ => 1) "HELLO" 1 (3 / 2) 1) / 2)) := by
  have H := hello_arc_five_placements 3 (fun _ => 1) 1 1 (by norm_num)
    (by norm_num) (by norm_num) (by norm_num) (by norm_num) (by norm_num)
    (by norm_num)
  exact ⟨by norm_num, by norm_num, by norm_num, by norm_num, by norm_num,
    by norm_num, by norm_num, H⟩

/-- C4 counterexample: for the input `" a"` (a legitimate prompt — its
trim is nonempty), `prompt.split(" ")` is `["", "a"]`, but the wrap
commits only the line `"a"`: the leading empty token is dropped, so
concatenating the committed lines' tokens does not reproduce the
original word sequence. -/
theorem wrap_drops_word_cex :
    ((wrapWords (fun t => (t.length : ℚ)) 1120 (wordsOf " a")).map
        wordsOf).flatten ≠ wordsOf " a" := by
  decide

/-- C4 (amended): every committed line either measures within
`maxWidth` or is a single word of the input (the allowed exception);
and when every token of the space-split word sequence is non-empty
(no leading space or space runs producing empty tokens at commit
boundaries), concatenating the committed lines' tokens reproduces the
original word sequence exactly — an empty token can be dropped, as the
counterexample shows. -/
theorem wrap_width_and_words (m : String → ℚ) (maxW : ℚ)
    (words : List String) :
    (∀ line ∈ wrapWords m maxW words, m line ≤ maxW ∨ line ∈ words) ∧
      ((∀ w ∈ words, w ≠ "" ∧ ' ' ∉ w.toList) →
        ((wrapWords m maxW words).map wordsOf).flatten = words) := by
  constructor
  · intro line hline
    exact wrapLoop_width m maxW (· ∈ words) words ""
      (fun h => absurd rfl h) (fun x hx => hx) line hline
  · intro hws
    cases words with
    | nil => rfl
    | cons w ws =>
      obtain ⟨hw1, hw2⟩ := hws w (List.mem_cons_self w ws)
      have hws' : ∀ x ∈ ws, x ≠ "" ∧ ' ' ∉ x.toList :=
        fun x hx => hws x (List.mem_cons_of_mem w hx)
      rw [wrapWords]
      have hstep : wrapLoop m maxW (w :: ws) "" = wrapLoop m maxW ws w := by
        simp [wrapLoop]
      rw [hstep, wrapLoop_join m maxW ws w hws' hw1, wordsOf_single w hw2]
      rfl

/-- C4 witness: words `["aa", "bb"]` with a length-based measure and
`maxWidth = 4`, forcing one wrap. -/
theorem wrap_width_and_words_witness :
    (∀ w ∈ ["aa", "bb"], w ≠ "" ∧ ' ' ∉ w.toList) ∧
      (∀ line ∈ wrapWords (fun t => (t.length : ℚ)) 4 ["aa", "bb"],
        (fun t => (t.length : ℚ)) line ≤ 4 ∨ line ∈ ["aa", "bb"]) ∧
      ((wrapWords (fun t => (t.length : ℚ)) 4 ["aa", "bb"]).map
          wordsOf).flatten = ["aa", "bb"] :=
  ⟨by decide,
    (wrap_width_and_words (fun t => (t.length : ℚ)) 4 ["aa", "bb"]).1,
    (wrap_width_and_words (fun t => (t.length : ℚ)) 4 ["aa", "bb"]).2
      (by decide)⟩

end TextToImage
